import Mathlib

/-!
Shallow embedding of the raytracer_rust repository (src/geometry.rs,
src/materials.rs, src/lights.rs, src/shapes.rs, src/scene.rs, src/main.rs).

Machine floating-point (`f64`) is modelled by the type `F` below: an exact
rational value extended with the IEEE special values `nan`, `inf`, `ninf`.
Arithmetic on finite values is exact rational arithmetic (no rounding or
overflow); the propagation rules for the special values follow IEEE 754 as
implemented by Rust `f64` (with the two signed zeros merged into the single
rational zero).  `sqrt`, `tan` and `powf` are irrational-valued on most
rationals, so they are modelled by fixed computable rational approximations
that agree with the exact value whenever it is rational (these choices are
documented at the definitions; no theorem below depends on the approximate
values, only on the special-value structure).
-/

/-- Model of Rust `f64`: `nan`, the two infinities, or an exact finite value. -/
inductive F : Type
  | nan : F
  | inf : F
  | ninf : F
  | fin : ℚ → F
deriving DecidableEq, Repr

namespace F

/-- The `is_nan` test of `f64`. -/
def isNaN : F → Bool
  | nan => true
  | _ => false

/-- IEEE negation (`-x`). -/
def neg : F → F
  | nan => nan
  | inf => ninf
  | ninf => inf
  | fin q => fin (-q)

instance : Neg F := ⟨neg⟩

/-- IEEE addition: `inf + ninf` is `nan`; `nan` propagates; finite addition exact. -/
def add : F → F → F
  | nan, _ => nan
  | _, nan => nan
  | inf, ninf => nan
  | ninf, inf => nan
  | inf, _ => inf
  | _, inf => inf
  | ninf, _ => ninf
  | _, ninf => ninf
  | fin q, fin r => fin (q + r)

instance : Add F := ⟨add⟩

/-- IEEE subtraction, which coincides with `x + (-y)`. -/
def sub (x y : F) : F := x + (-y)

instance : Sub F := ⟨sub⟩

/-- IEEE multiplication: `0 * inf` is `nan`; signs of infinities follow the
sign of the finite factor; `nan` propagates; finite multiplication exact. -/
def mul : F → F → F
  | nan, _ => nan
  | _, nan => nan
  | inf, inf => inf
  | inf, ninf => ninf
  | ninf, inf => ninf
  | ninf, ninf => inf
  | inf, fin q => if q = 0 then nan else if 0 < q then inf else ninf
  | fin q, inf => if q = 0 then nan else if 0 < q then inf else ninf
  | ninf, fin q => if q = 0 then nan else if 0 < q then ninf else inf
  | fin q, ninf => if q = 0 then nan else if 0 < q then ninf else inf
  | fin q, fin r => fin (q * r)

instance : Mul F := ⟨mul⟩

/-- IEEE division (with the divisor's `+0` zero): `x / 0` is `nan` for `x = 0`
and a signed infinity otherwise; `inf / inf` is `nan`; finite division exact. -/
def div : F → F → F
  | nan, _ => nan
  | _, nan => nan
  | inf, inf => nan
  | inf, ninf => nan
  | ninf, inf => nan
  | ninf, ninf => nan
  | inf, fin q => if q < 0 then ninf else inf
  | ninf, fin q => if q < 0 then inf else ninf
  | fin _, inf => fin 0
  | fin _, ninf => fin 0
  | fin q, fin r =>
      if r = 0 then (if q = 0 then nan else if 0 < q then inf else ninf)
      else fin (q / r)

instance : Div F := ⟨div⟩

/-- Strict IEEE comparison `x < y` (`false` whenever an operand is `nan`). -/
def blt : F → F → Bool
  | nan, _ => false
  | _, nan => false
  | ninf, ninf => false
  | ninf, _ => true
  | _, ninf => false
  | inf, _ => false
  | fin _, inf => true
  | fin q, fin r => decide (q < r)

/-- Strict IEEE comparison `x > y`, which is `y < x`. -/
def bgt (x y : F) : Bool := blt y x

/-- Rust `f64::min`: if one argument is `nan` the other is returned. -/
def fmin (x y : F) : F :=
  if x.isNaN then y else if y.isNaN then x else if blt y x then y else x

/-- Rust `f64::max`: if one argument is `nan` the other is returned. -/
def fmax (x y : F) : F :=
  if x.isNaN then y else if y.isNaN then x else if blt x y then y else x

/-- Rust `f64::clamp(min, max)`: `min` if below, `max` if above, else the value
itself (in particular `nan` is propagated unchanged). -/
def clamp (x lo hi : F) : F :=
  if blt x lo then lo else if bgt x hi then hi else x

/-- Rust `PartialOrd::partial_cmp` on `f64`: `none` iff an operand is `nan`. -/
def cmpOpt (x y : F) : Option Ordering :=
  if x.isNaN || y.isNaN then none
  else if blt x y then some Ordering.lt
  else if blt y x then some Ordering.gt
  else some Ordering.eq

/-- IEEE absolute value. -/
def abs : F → F
  | nan => nan
  | inf => inf
  | ninf => inf
  | fin q => fin |q|

/-- Largest `k ≤ bound` with `k * k ≤ n`, by downward structural search. -/
def sqrtLoop (n : Nat) : Nat → Nat
  | 0 => 0
  | k + 1 => if (k + 1) * (k + 1) ≤ n then k + 1 else sqrtLoop n k

/-- Floor square root on `Nat` by downward structural search (the structural
recursion is kernel-computable, unlike the well-founded `Nat.sqrt`). -/
def natSqrt (n : Nat) : Nat := sqrtLoop n n

/-- Rational square-root approximation on `ℚ`:
`sqrt (n / d) = sqrt (n * d) / d` with the floor square root `natSqrt`. -/
def ratSqrt (q : ℚ) : ℚ := (natSqrt (q.num.toNat * q.den) : ℚ) / (q.den : ℚ)

/-- IEEE `sqrt`: `nan` on negative arguments (and `nan`, `ninf`), `inf` at
`inf`; on non-negative finite values modelled by the rational approximation
`ratSqrt` (exact whenever the true root is rational). -/
def sqrt : F → F
  | nan => nan
  | inf => inf
  | ninf => nan
  | fin q => if q < 0 then nan else fin (ratSqrt q)

/-- Rounding half away from zero on rationals, the rounding mode of
Rust `f64::round`. -/
def roundAway (q : ℚ) : ℤ := if 0 ≤ q then ⌊q + 1 / 2⌋ else -⌊-q + 1 / 2⌋

/-- Rust `f64::round` (round half away from zero; specials map to themselves). -/
def round : F → F
  | nan => nan
  | inf => inf
  | ninf => ninf
  | fin q => fin (roundAway q)

/-- Rust `f64::mul_add(a, b, c) = a * b + c`; the fused operation rounds once
in IEEE, and the model's finite arithmetic is exact, so it is exactly
`a * b + c` here. -/
def mulAdd (a b c : F) : F := a * b + c

/-- Integer power of a rational, used to model `powf` on integral exponents. -/
def ratPowInt (q : ℚ) (e : ℤ) : ℚ := if 0 ≤ e then q ^ e.toNat else (q ^ (-e).toNat)⁻¹

/-- Rust `f64::powf`, modelled on the IEEE `pow` special cases
(`pow (x, 0) = 1` and `pow (1, y) = 1` even for `nan` arguments); on finite
base and exponent it is approximated by the integer power at the floor of the
exponent (exact for integral exponents and non-negative base), with `nan` for
a negative base and fractional exponent. -/
def powf (a b : F) : F :=
  if b = fin 0 then fin 1
  else if a = fin 1 then fin 1
  else if a.isNaN || b.isNaN then nan
  else
    match a, b with
    | inf, b => if blt (fin 0) b then inf else fin 0
    | ninf, b => if blt (fin 0) b then inf else fin 0
    | fin q, inf => if blt (fin (-1)) (fin q) ∧ blt (fin q) (fin 1) then fin 0 else inf
    | fin q, ninf => if blt (fin (-1)) (fin q) ∧ blt (fin q) (fin 1) then inf else fin 0
    | fin q, fin r =>
        if q = 0 then (if 0 < r then fin 0 else inf)
        else if q < 0 ∧ ¬ r.den = 1 then nan
        else fin (ratPowInt q ⌊r⌋)
    | nan, _ => nan
    | _, nan => nan

/-- Odd Taylor polynomial `x + x^3/3 + 2x^5/15` used as the fixed computable
model of `f64::tan` on finite values (`nan` on the specials).  No theorem in
this development depends on its values, only on it being a fixed pure
function of its argument. -/
def tan : F → F
  | nan => nan
  | inf => nan
  | ninf => nan
  | fin q => fin (q + q ^ 3 / 3 + 2 * q ^ 5 / 15)

end F

/-- Model of `Vec3f = RaytracerVector<f64, 3>` (geometry.rs): the three
components of the fixed-size array `data`. -/
structure Vec3f where
  x : F
  y : F
  z : F
deriving DecidableEq, Repr

/-- Model of `Vec4f = RaytracerVector<f64, 4>` (geometry.rs). -/
structure Vec4f where
  a0 : F
  a1 : F
  a2 : F
  a3 : F
deriving DecidableEq, Repr

namespace Vec3f

/-- Component-wise vector addition (geometry.rs `impl_op_vector!(Add, ...)`). -/
def add (u v : Vec3f) : Vec3f := ⟨u.x + v.x, u.y + v.y, u.z + v.z⟩

instance : Add Vec3f := ⟨add⟩

/-- Component-wise vector subtraction (geometry.rs `impl_op_vector!(Sub, ...)`). -/
def sub (u v : Vec3f) : Vec3f := ⟨u.x - v.x, u.y - v.y, u.z - v.z⟩

instance : Sub Vec3f := ⟨sub⟩

/-- Component-wise negation (geometry.rs `Neg`). -/
def neg (u : Vec3f) : Vec3f := ⟨-u.x, -u.y, -u.z⟩

instance : Neg Vec3f := ⟨neg⟩

/-- Scalar multiplication (geometry.rs `impl_op_scalar!(Mul, ...)`). -/
def smul (u : Vec3f) (s : F) : Vec3f := ⟨u.x * s, u.y * s, u.z * s⟩

instance : HMul Vec3f F Vec3f := ⟨smul⟩

/-- Scalar division (geometry.rs `impl_op_scalar!(Div, ...)`). -/
def sdiv (u : Vec3f) (s : F) : Vec3f := ⟨u.x / s, u.y / s, u.z / s⟩

instance : HDiv Vec3f F Vec3f := ⟨sdiv⟩

/-- Dot product: `Mul<RaytracerVector> for RaytracerVector` (geometry.rs),
a zip-multiply summed by `f64`'s `Sum`, which folds from `0.0`. -/
def dot (u v : Vec3f) : F := ((F.fin 0 + u.x * v.x) + u.y * v.y) + u.z * v.z

instance : HMul Vec3f Vec3f F := ⟨dot⟩

/-- Euclidean length (geometry.rs `length`): square root of the sum (folded
from `0.0`) of the squares of the components. -/
def length (u : Vec3f) : F :=
  F.sqrt (((F.fin 0 + u.x * u.x) + u.y * u.y) + u.z * u.z)

/-- geometry.rs `normalize(scale)`: divides by `length()` (or by
`length() / scale` when a scale is supplied). -/
def normalize (u : Vec3f) (scale : Option F) : Vec3f :=
  let l := match scale with
    | some s => u.length / s
    | none => u.length
  u / l

/-- Cross product (geometry.rs `cross`), right-hand rule on the components. -/
def cross (u v : Vec3f) : Vec3f :=
  ⟨u.y * v.z - u.z * v.y, u.z * v.x - u.x * v.z, u.x * v.y - u.y * v.x⟩

end Vec3f

/-- Model of `Material` (materials.rs): albedo weights, diffuse and ambient
colors, Phong exponent and refractive index. -/
structure Material where
  albedo : Vec4f
  diffuse_color : Vec3f
  ambient_color : Vec3f
  specular_exponent : F
  refractive_index : F
deriving DecidableEq, Repr

/-- materials.rs `RED_MATERIAL` (albedo `[0.6, 0.3, 0.0, 0.1]`, diffuse
`[1.0, 0.1, 0.1]`, ambient `[0.2, 0.05, 0.05]`, exponent `250`, index `1`). -/
def RED_MATERIAL : Material :=
  { albedo := ⟨F.fin (6/10), F.fin (3/10), F.fin 0, F.fin (1/10)⟩
    diffuse_color := ⟨F.fin 1, F.fin (1/10), F.fin (1/10)⟩
    ambient_color := ⟨F.fin (2/10), F.fin (5/100), F.fin (5/100)⟩
    specular_exponent := F.fin 250
    refractive_index := F.fin 1 }

/-- Model of `AmbientLight` (lights.rs). -/
structure AmbientLight where
  intensity : F
deriving DecidableEq, Repr

/-- Model of `PointLight` (lights.rs). -/
structure PointLight where
  intensity : F
  position : Vec3f
deriving DecidableEq, Repr

/-- Model of `DirectionalLight` (lights.rs). -/
structure DirectionalLight where
  intensity : F
  direction : Vec3f
deriving DecidableEq, Repr

/-- Model of the `LightType` sum type (lights.rs). -/
inductive LightType : Type
  | Point : PointLight → LightType
  | Directional : DirectionalLight → LightType
  | Ambient : AmbientLight → LightType
deriving DecidableEq, Repr

namespace LightType

/-- lights.rs `Light::intensity` dispatched over the variants. -/
def intensity : LightType → F
  | Point l => l.intensity
  | Directional l => l.intensity
  | Ambient l => l.intensity

/-- lights.rs `Light::get_direction`: ambient returns the zero placeholder,
point lights the normalized vector toward the light, directional lights the
stored direction. -/
def get_direction : LightType → Vec3f → Vec3f
  | Ambient _, _ => ⟨F.fin 0, F.fin 0, F.fin 0⟩
  | Point l, point => (l.position - point).normalize none
  | Directional l, _ => l.direction

/-- lights.rs `Light::get_distance`: `0` for ambient, Euclidean distance for
point lights, `f64::INFINITY` for directional lights. -/
def get_distance : LightType → Vec3f → F
  | Ambient _, _ => F.fin 0
  | Point l, point => (l.position - point).length
  | Directional _, _ => F.inf

/-- lights.rs `Light::is_ambient` discriminator. -/
def is_ambient : LightType → Bool
  | Ambient _ => true
  | _ => false

end LightType

/-- main.rs `EPSILON = 1e-3`. -/
def EPSILON : F := F.fin (1/1000)

/-- main.rs `MAX_DEPTH = 4`. -/
def MAX_DEPTH : Nat := 4

/-- main.rs `BACKGROUND_COLOR = [0.2, 0.7, 0.8]`. -/
def BACKGROUND_COLOR : Vec3f := ⟨F.fin (2/10), F.fin (7/10), F.fin (8/10)⟩

/-- Model of `Sphere` (shapes.rs). -/
structure Sphere where
  center : Vec3f
  radius : F
  material : Material
deriving DecidableEq, Repr

/-- shapes.rs `Sphere::ray_intersect`: the analytic ray–sphere test.  `l` is
the vector to the center, `tca` its projection on the direction,
`d2 = l·l − tca²` (via `mul_add`); no hit if `d2 > r²`; otherwise the roots
are `tca ∓ thc` with `thc = sqrt (r² − d2)` (via `mul_add`); a negative first
root falls back to the second, and a still-negative root is no hit. -/
def Sphere.ray_intersect (s : Sphere) (origin direction : Vec3f) : Option F :=
  let l := s.center - origin
  let tca := l * direction
  let d2 := tca.mulAdd (-tca) (l * l)
  if F.bgt d2 (s.radius * s.radius) then none
  else
    let thc := F.sqrt (s.radius.mulAdd s.radius (-d2))
    let t0 := tca - thc
    let t1 := tca + thc
    let t0' := if F.blt t0 (F.fin 0) then t1 else t0
    if F.blt t0' (F.fin 0) then none else some t0'

/-- shapes.rs `Shape::get_normal` for `Sphere`: normalized vector from the
center to the hit point. -/
def Sphere.get_normal (s : Sphere) (hit_point : Vec3f) : Vec3f :=
  (hit_point - s.center).normalize none

/-- Model of `BoxShape` (shapes.rs): axis-aligned box given by two corners. -/
structure BoxShape where
  max_point : Vec3f
  min_point : Vec3f
  material : Material
deriving DecidableEq, Repr

/-- shapes.rs `BoxShape::ray_intersect`: the slab method with reciprocal
direction components (IEEE division by zero tolerated), `tmin`/`tmax` from
`f64::min`/`f64::max`; no hit when `tmax < 0` or `tmin > tmax`, otherwise
`tmax` when `tmin < 0` (origin inside) else `tmin`. -/
def BoxShape.ray_intersect (b : BoxShape) (origin direction : Vec3f) : Option F :=
  let invx := F.fin 1 / direction.x
  let invy := F.fin 1 / direction.y
  let invz := F.fin 1 / direction.z
  let t1 := (b.min_point.x - origin.x) * invx
  let t2 := (b.max_point.x - origin.x) * invx
  let t3 := (b.min_point.y - origin.y) * invy
  let t4 := (b.max_point.y - origin.y) * invy
  let t5 := (b.min_point.z - origin.z) * invz
  let t6 := (b.max_point.z - origin.z) * invz
  let tmin := F.fmax (F.fmax (F.fmin t1 t2) (F.fmin t3 t4)) (F.fmin t5 t6)
  let tmax := F.fmin (F.fmin (F.fmax t1 t2) (F.fmax t3 t4)) (F.fmax t5 t6)
  if F.blt tmax (F.fin 0) || F.bgt tmin tmax then none
  else some (if F.blt tmin (F.fin 0) then tmax else tmin)

/-- shapes.rs `Shape::get_normal` for `BoxShape`: the first face plane (in
x-min, x-max, y-min, y-max, z-min, z-max order) whose coordinate matches the
hit point within `EPSILON` gives the axis-aligned normal; the zero vector if
none matches. -/
def BoxShape.get_normal (b : BoxShape) (hit_point : Vec3f) : Vec3f :=
  if F.blt (F.abs (hit_point.x - b.min_point.x)) EPSILON then ⟨F.fin (-1), F.fin 0, F.fin 0⟩
  else if F.blt (F.abs (hit_point.x - b.max_point.x)) EPSILON then ⟨F.fin 1, F.fin 0, F.fin 0⟩
  else if F.blt (F.abs (hit_point.y - b.min_point.y)) EPSILON then ⟨F.fin 0, F.fin (-1), F.fin 0⟩
  else if F.blt (F.abs (hit_point.y - b.max_point.y)) EPSILON then ⟨F.fin 0, F.fin 1, F.fin 0⟩
  else if F.blt (F.abs (hit_point.z - b.min_point.z)) EPSILON then ⟨F.fin 0, F.fin 0, F.fin (-1)⟩
  else if F.blt (F.abs (hit_point.z - b.max_point.z)) EPSILON then ⟨F.fin 0, F.fin 0, F.fin 1⟩
  else ⟨F.fin 0, F.fin 0, F.fin 0⟩

/-- Model of `InfinityPlane` (shapes.rs): a point on the plane, the stored
normal and the material. -/
structure InfinityPlane where
  position : Vec3f
  normal : Vec3f
  material : Material
deriving DecidableEq, Repr

/-- shapes.rs `InfinityPlane::new`: stores the position and material as given
and the supplied normal normalized (`normal.normalize(None)`). -/
def InfinityPlane.new (position normal : Vec3f) (material : Material) : InfinityPlane :=
  { position := position, normal := normal.normalize none, material := material }

/-- shapes.rs `InfinityPlane::ray_intersect`: no hit when `dir·n` is within
`EPSILON` of zero (ray parallel to the plane); otherwise
`s = (n·(position − origin)) / (dir·n)`, no hit when `s < 0`. -/
def InfinityPlane.ray_intersect (p : InfinityPlane) (origin direction : Vec3f) : Option F :=
  let ray_point := direction * p.normal
  if F.blt (F.abs ray_point) EPSILON then none
  else
    let s := (p.normal * (p.position - origin)) / ray_point
    if F.blt s (F.fin 0) then none else some s

/-- shapes.rs `Shape::get_normal` for `InfinityPlane`: the stored normal,
independent of the hit point. -/
def InfinityPlane.get_normal (p : InfinityPlane) (_hit_point : Vec3f) : Vec3f :=
  p.normal

/-- Model of the `ShapeType` sum type (shapes.rs). -/
inductive ShapeType : Type
  | Sphere : Sphere → ShapeType
  | BoxShape : BoxShape → ShapeType
  | InfinityPlane : InfinityPlane → ShapeType
deriving DecidableEq, Repr

namespace ShapeType

/-- shapes.rs `Intersectable::ray_intersect` dispatched over the variants. -/
def ray_intersect : ShapeType → Vec3f → Vec3f → Option F
  | Sphere s, origin, direction => s.ray_intersect origin direction
  | BoxShape b, origin, direction => b.ray_intersect origin direction
  | InfinityPlane p, origin, direction => p.ray_intersect origin direction

/-- shapes.rs `Shape::get_normal` dispatched over the variants. -/
def get_normal : ShapeType → Vec3f → Vec3f
  | Sphere s, hit => s.get_normal hit
  | BoxShape b, hit => b.get_normal hit
  | InfinityPlane p, hit => p.get_normal hit

/-- shapes.rs `Shape::get_material` dispatched over the variants. -/
def get_material : ShapeType → Material
  | Sphere s => s.material
  | BoxShape b => b.material
  | InfinityPlane p => p.material

end ShapeType

/-- scene.rs `to_u8` helper: `(color * 255.0).round() as u8`.  The Rust
float-to-integer `as` cast saturates: `nan` to `0`, values below `0` to `0`,
values above `255` to `255`; `u8OfF` is that saturating cast applied to the
already rounded value. -/
def u8OfF : F → Nat
  | F.nan => 0
  | F.ninf => 0
  | F.inf => 255
  | F.fin q => if q < 0 then 0 else if 255 < q then 255 else (⌊q⌋).toNat

/-- scene.rs `to_u8(color) = (color * 255.0).round() as u8` (no explicit
clamp; the saturating cast is `u8OfF`). -/
def to_u8 (color : F) : Nat := u8OfF ((color * F.fin 255).round)

/-- main.rs `to_u8(color) = (color.clamp(0.0, 1.0) * 255.0).round() as u8`
(the variant with an explicit clamp to `[0, 1]`). -/
def main_to_u8 (color : F) : Nat :=
  u8OfF (((F.clamp color (F.fin 0) (F.fin 1)) * F.fin 255).round)

/-- scene.rs `reflect(direction, normal) = direction − normal * (direction·normal) * 2`. -/
def reflect (direction normal : Vec3f) : Vec3f :=
  direction - normal * (direction * normal) * F.fin 2

/-- scene.rs `refract(direction, normal, refractive_index)`: Snell's-law
vector refraction.  `cosi` is `direction·normal` clamped to `[−1, 1]`; when
`cosi < 0` its sign is flipped, the index pair `(1, refractive_index)` is
swapped and the normal `n` is flipped; `eta = ior_in / ior_out`,
`k = 1 − eta²·(1 − cosi²)` (via `mul_add`); the zero vector when `k < 0`
(total internal reflection), otherwise
`direction * eta + n * (eta * cosi − sqrt k)` (via `mul_add`). -/
def refract (direction normal : Vec3f) (refractive_index : F) : Vec3f :=
  let cosi0 := F.clamp (direction * normal) (F.fin (-1)) (F.fin 1)
  let cosi := if F.blt cosi0 (F.fin 0) then -cosi0 else cosi0
  let ior_in := if F.blt cosi0 (F.fin 0) then refractive_index else F.fin 1
  let ior_out := if F.blt cosi0 (F.fin 0) then F.fin 1 else refractive_index
  let n := if F.blt cosi0 (F.fin 0) then -normal else normal
  let eta := ior_in / ior_out
  let k := (eta * eta).mulAdd (-(cosi.mulAdd (-cosi) (F.fin 1))) (F.fin 1)
  if F.blt k (F.fin 0) then ⟨F.fin 0, F.fin 0, F.fin 0⟩
  else direction * eta + n * (eta.mulAdd cosi (-(F.sqrt k)))

/-- scene.rs `adjust_ray_origin(direction, point, normal)`: offsets the point
by `EPSILON` along the normal, on the side chosen by the sign of
`direction·normal`. -/
def adjust_ray_origin (direction point normal : Vec3f) : Vec3f :=
  if F.blt (direction * normal) (F.fin 0) then point - normal * EPSILON
  else point + normal * EPSILON

/-- The list built by the `filter_map` in scene.rs `scene_intersect`: for each
shape that reports an intersection, the pair of the distance and the
`(hit, normal, material)` payload, in shape-list order. -/
def sceneHits (origin direction : Vec3f) (shapes : List ShapeType) :
    List (F × (Vec3f × Vec3f × Material)) :=
  shapes.filterMap (fun shape =>
    (shape.ray_intersect origin direction).map (fun distance =>
      let hit := origin + direction * distance
      (distance, (hit, shape.get_normal hit, shape.get_material))))

/-- The comparator closure of scene.rs `scene_intersect`'s `min_by`: ordinary
order on non-`nan` distances, a `nan` greater than any non-`nan`, two `nan`s
equal. -/
def distCmp (a b : F) : Ordering :=
  match a.cmpOpt b, a.isNaN, b.isNaN with
  | some order, false, false => order
  | _, true, false => Ordering.gt
  | _, false, true => Ordering.lt
  | _, _, _ => Ordering.eq

/-- Rust `Iterator::min_by` with the `distCmp` comparator on the first
component: a left fold that replaces the current minimum only when it
compares strictly greater than the next element (so the first of equal
minima is kept), `none` on the empty list. -/
def min_by {α : Type} (l : List (F × α)) : Option (F × α) :=
  l.foldl (fun acc x =>
    match acc with
    | none => some x
    | some a => if distCmp a.1 x.1 = Ordering.gt then some x else some a) none

/-- scene.rs `scene_intersect(origin, direction, shapes)`: the linear
`filter_map` scan (`sceneHits`), the `min_by` selection with `distCmp`, the
`filter` discarding a winning distance not strictly below `1000.0`, and the
projection to the `(hit, normal, material)` payload. -/
def scene_intersect (origin direction : Vec3f) (shapes : List ShapeType) :
    Option (Vec3f × Vec3f × Material) :=
  ((min_by (sceneHits origin direction shapes)).filter
    (fun x => F.blt x.1 (F.fin 1000))).map (fun x => x.2)

/-- scene.rs `is_in_shadow(normal, point, light_direction, light_distance,
shapes)`: casts the shadow feeler from the `adjust_ray_origin` offset origin
toward the light; `(false, none)` without an intersection, otherwise the flag
`(shadow_hit − shadow_origin).length < light_distance` and the pair of the
shadow origin and hit. -/
def is_in_shadow (normal point light_direction : Vec3f) (light_distance : F)
    (shapes : List ShapeType) : Bool × Option (Vec3f × Vec3f) :=
  let shadow_origin := adjust_ray_origin light_direction point normal
  match scene_intersect shadow_origin light_direction shapes with
  | none => (false, none)
  | some (shadow_hit, _, _) =>
      (F.blt ((shadow_hit - shadow_origin).length) light_distance,
       some (shadow_origin, shadow_hit))

/-- scene.rs `compute_lighthing` (sic): maps every light to an
`(ambient, specular, diffuse)` triple — the bare intensity for an ambient
light; otherwise the Phong terms, zeroed when the shadow test (with its inner
re-check of the same distance condition) reports the light occluded — sums
the triples component-wise from `(0, 0, 0)`, and returns the sums reordered
as `(ambient, diffuse, specular)`. -/
def compute_lighthing (hit normal direction : Vec3f) (lights : List LightType)
    (material : Material) (shapes : List ShapeType) : F × F × F :=
  let acc := (lights.map (fun light =>
    if light.is_ambient then (light.intensity, F.fin 0, F.fin 0)
    else
      let light_direction := light.get_direction hit
      let light_distance := light.get_distance hit
      let refl := (reflect light_direction normal) * direction
      let shadow := is_in_shadow normal hit light_direction light_distance shapes
      if shadow.1 then
        match shadow.2 with
        | some (origin, hit') =>
            if F.blt ((hit' - origin).length) light_distance then (F.fin 0, F.fin 0, F.fin 0)
            else
              (F.fin 0,
               (F.powf (F.fmax refl (F.fin 0)) material.specular_exponent) * light.intensity,
               light.intensity * F.fmax (F.fin 0) (light_direction * normal))
        | none =>
            (F.fin 0,
             (F.powf (F.fmax refl (F.fin 0)) material.specular_exponent) * light.intensity,
             light.intensity * F.fmax (F.fin 0) (light_direction * normal))
      else
        (F.fin 0,
         (F.powf (F.fmax refl (F.fin 0)) material.specular_exponent) * light.intensity,
         light.intensity * F.fmax (F.fin 0) (light_direction * normal)))).foldl
    (fun acc val => (acc.1 + val.1, acc.2.1 + val.2.1, acc.2.2 + val.2.2))
    (F.fin 0, F.fin 0, F.fin 0)
  (acc.1, acc.2.2, acc.2.1)

/-- scene.rs `calculate_final_color`: `ambient_color * ambient +
diffuse_color * diffuse * albedo[0] + white * specular * albedo[1] +
reflect_color * albedo[2] + refract_color * albedo[3]`. -/
def calculate_final_color (material : Material)
    (ambient_light_intensity diffuse_light_intensity specular_light_intensity : F)
    (reflect_color refract_color : Vec3f) : Vec3f :=
  material.ambient_color * ambient_light_intensity
    + material.diffuse_color * diffuse_light_intensity * material.albedo.a0
    + (⟨F.fin 1, F.fin 1, F.fin 1⟩ : Vec3f) * specular_light_intensity * material.albedo.a1
    + reflect_color * material.albedo.a2
    + refract_color * material.albedo.a3

/-- The body of scene.rs `cast_ray`, instrumented with a structural fuel that
bounds the number of nested recursive calls: with fuel `0` the background
color is returned; otherwise the function is the literal source body — the
`depth > MAX_DEPTH` guard, the `scene_intersect` query, the reflected and
refracted recursive rays at `depth + 1` (consuming one unit of fuel), the
lighting sums and `calculate_final_color`. -/
def castRayFuel (shapes : List ShapeType) (lights : List LightType) :
    Nat → Vec3f → Vec3f → Nat → Vec3f
  | 0, _, _, _ => BACKGROUND_COLOR
  | fuel + 1, origin, direction, depth =>
    if MAX_DEPTH < depth then BACKGROUND_COLOR
    else
      match scene_intersect origin direction shapes with
      | none => BACKGROUND_COLOR
      | some (hit, normal, material) =>
          let reflect_direction := (reflect direction normal).normalize none
          let reflect_origin := adjust_ray_origin reflect_direction hit normal
          let reflect_color := castRayFuel shapes lights fuel reflect_origin reflect_direction (depth + 1)
          let refract_direction := (refract direction normal material.refractive_index).normalize none
          let refract_origin := adjust_ray_origin refract_direction hit normal
          let refract_color := castRayFuel shapes lights fuel refract_origin refract_direction (depth + 1)
          let lighting := compute_lighthing hit normal direction lights material shapes
          calculate_final_color material lighting.1 lighting.2.1 lighting.2.2
            reflect_color refract_color

/-- scene.rs `cast_ray(origin, direction, shapes, lights, depth)`: the
recursion of the source is bounded by its own `depth > MAX_DEPTH` guard, so
it is realized as `castRayFuel` with the sufficient fuel budget
`MAX_DEPTH + 1 − depth`; the theorem `cast_ray_unfold` proves that the
function so defined satisfies the source's recurrence verbatim, and the
fuel-independence theorem shows any budget of at least `MAX_DEPTH + 1 − depth`
units yields the same value. -/
def cast_ray (origin direction : Vec3f) (shapes : List ShapeType)
    (lights : List LightType) (depth : Nat) : Vec3f :=
  castRayFuel shapes lights (MAX_DEPTH + 1 - depth) origin direction depth

/-- The 4-byte pixel chunking of scene.rs `render_scene`'s
`par_chunks_mut(4)`: the frame split into chunks of four bytes, the final
chunk shorter when the length is not a multiple of four. -/
def chunksOf4 : List Nat → List (List Nat)
  | [] => []
  | a :: b :: c :: d :: rest => [a, b, c, d] :: chunksOf4 rest
  | rest => [rest]

/-- Index-passing map over the chunk list, modelling the
`enumerate().for_each(...)` over the pixel chunks. -/
def forEachChunk (f : Nat → List Nat → List Nat) : Nat → List (List Nat) → List (List Nat)
  | _, [] => []
  | i, c :: cs => f i c :: forEachChunk f (i + 1) cs

/-- The per-pixel closure of scene.rs `render_scene`: from the chunk index the
pixel coordinates `i = index % width` and `j = index / width`; if either
fails the `u32::try_from` range check the chunk is left untouched (the source
logs and returns); otherwise the camera ray for the pixel is built from the
precomputed `fov_tan`, `cast_ray` is invoked at depth `0` from the fixed
origin `(0, 0, 2)`, and the chunk is overwritten with the three quantized
channels and alpha `255`.  (A trailing chunk shorter than four bytes would
make the source's indexing panic; the model leaves such a chunk unchanged,
and the render contract of a `width*height*4`-byte buffer never produces
one.) -/
def renderPixel (shapes : List ShapeType) (lights : List LightType)
    (height width : Nat) (fov_tan : F) (index : Nat) (pixel : List Nat) : List Nat :=
  if pixel.length = 4 then
    if index % width < 2 ^ 32 then
      if index / width < 2 ^ 32 then
        let i := index % width
        let j := index / width
        let x := (F.fin 2 * (F.fin (i : ℚ) + F.fin (1/2)) / F.fin (width : ℚ) - F.fin 1)
          * fov_tan * F.fin (width : ℚ) / F.fin (height : ℚ)
        let y := -(F.fin 2 * (F.fin (j : ℚ) + F.fin (1/2)) / F.fin (height : ℚ) - F.fin 1) * fov_tan
        let dir := (⟨x, y, F.fin (-1)⟩ : Vec3f).normalize none
        let color := cast_ray ⟨F.fin 0, F.fin 0, F.fin 2⟩ dir shapes lights 0
        [to_u8 color.x, to_u8 color.y, to_u8 color.z, 255]
      else pixel
    else pixel
  else pixel

/-- Model of the `Scene` struct (scene.rs): the owned shape and light lists. -/
structure Scene where
  shapes : List ShapeType
  lights : List LightType

/-- scene.rs `Scene::new`. -/
def Scene.new (shapes : List ShapeType) (lights : List LightType) : Scene :=
  ⟨shapes, lights⟩

/-- scene.rs `Scene::render_scene(frame, height, width, fov)`: precomputes
`fov_tan = tan (fov / 2)`, splits the frame into 4-byte pixel chunks and
rewrites each chunk by the pure per-pixel closure `renderPixel`; the
`par_chunks_mut` data-parallel dispatch of the source writes each chunk
independently, so its sequential realization below computes the same frame. -/
def Scene.render_scene (s : Scene) (frame : List Nat) (height width : Nat)
    (fov : F) : List Nat :=
  let fov_tan := F.tan (fov / F.fin 2)
  (forEachChunk (renderPixel s.shapes s.lights height width fov_tan) 0
    (chunksOf4 frame)).flatten

namespace F

/-- Addition of the `f64` model is commutative. -/
theorem addComm (x y : F) : x + y = y + x := by
  cases x <;> cases y <;> first
    | rfl
    | exact congrArg F.fin (add_comm _ _)

/-- Multiplication of the `f64` model is commutative. -/
theorem mulComm (x y : F) : x * y = y * x := by
  cases x <;> cases y <;> first
    | rfl
    | exact congrArg F.fin (mul_comm _ _)

/-- Negation is an involution in the `f64` model. -/
theorem negNeg (x : F) : -(-x) = x := by
  cases x <;> first
    | rfl
    | exact congrArg F.fin (neg_neg _)

/-- Negation distributes over addition in the `f64` model. -/
theorem negAdd (x y : F) : -(x + y) = -x + -y := by
  cases x <;> cases y <;> first
    | rfl
    | exact congrArg F.fin (neg_add _ _)

/-- Multiplying by a negation negates the product in the `f64` model. -/
theorem mulNeg (x y : F) : x * -y = -(x * y) := by
  cases x <;> cases y <;> try rfl
  case fin.fin => exact congrArg F.fin (mul_neg _ _)
  case inf.fin =>
    rename_i q
    show F.mul inf (fin (-q)) = F.neg (F.mul inf (fin q))
    simp only [F.mul]
    rcases lt_trichotomy q 0 with h | h | h
    · simp [neg_eq_zero, neg_pos, h, h.ne, not_lt.mpr h.le, F.neg]
    · subst h; simp [F.neg]
    · simp [neg_eq_zero, neg_pos, h, h.ne', not_lt.mpr h.le, F.neg]
  case ninf.fin =>
    rename_i q
    show F.mul ninf (fin (-q)) = F.neg (F.mul ninf (fin q))
    simp only [F.mul]
    rcases lt_trichotomy q 0 with h | h | h
    · simp [neg_eq_zero, neg_pos, h, h.ne, not_lt.mpr h.le, F.neg]
    · subst h; simp [F.neg]
    · simp [neg_eq_zero, neg_pos, h, h.ne', not_lt.mpr h.le, F.neg]
  case fin.inf =>
    rename_i q
    show F.mul (fin q) ninf = F.neg (F.mul (fin q) inf)
    simp only [F.mul]
    rcases lt_trichotomy q 0 with h | h | h
    · simp [h, h.ne, not_lt.mpr h.le, F.neg]
    · subst h; simp [F.neg]
    · simp [h, h.ne', not_lt.mpr h.le, F.neg]
  case fin.ninf =>
    rename_i q
    show F.mul (fin q) inf = F.neg (F.mul (fin q) ninf)
    simp only [F.mul]
    rcases lt_trichotomy q 0 with h | h | h
    · simp [h, h.ne, not_lt.mpr h.le, F.neg]
    · subst h; simp [F.neg]
    · simp [h, h.ne', not_lt.mpr h.le, F.neg]

/-- Subtraction is addition of the negation, definitionally. -/
theorem subDef (x y : F) : x - y = x + -y := rfl

/-- Negation reverses subtraction in the `f64` model. -/
theorem negSub (x y : F) : -(x - y) = y - x := by
  rw [subDef, negAdd, negNeg, addComm, subDef]

end F

/-- C9: the cross product is anticommutative: for all 3-vectors `a` and `b`,
`cross(a, b)` equals the negation of `cross(b, a)`, where `cross` is the
right-hand-rule formula of geometry.rs. -/
theorem Vec3f_cross_anticomm (a b : Vec3f) : a.cross b = -(b.cross a) := by
  cases a with
  | mk ax ay az =>
    cases b with
    | mk bx bY bz =>
      show Vec3f.mk _ _ _ = Vec3f.neg _
      simp only [Vec3f.cross, Vec3f.neg, Vec3f.mk.injEq]
      refine ⟨?_, ?_, ?_⟩ <;> rw [F.negSub] <;> simp [F.mulComm]

section RatKernelEval

/-! The core `Rat` operations are marked irreducible, which blocks `decide`
from evaluating the model on concrete rational inputs; re-exposing them as
semireducible lets the concrete witnesses below be checked by kernel
reduction.  This changes no statement and no proof term, only elaboration
transparency. -/

set_option allowUnsafeReducibility true in
attribute [semireducible] Rat.add Rat.mul Rat.inv Rat.neg Rat.sub Rat.div Rat.blt

end RatKernelEval

/-- C10: `InfinityPlane::new` normalizes the supplied normal before storing
it, so for every constructor argument with non-zero length and every query
point `get_normal` returns the normalization of the constructor's normal
argument, independently of the hit point. -/
theorem infinity_plane_unit_normal (position n : Vec3f) (material : Material)
    (p q : Vec3f) (h : ¬ n.length = F.fin 0) :
    (InfinityPlane.new position n material).get_normal p = n.normalize none ∧
    (InfinityPlane.new position n material).get_normal p =
      (InfinityPlane.new position n material).get_normal q :=
  ⟨rfl, rfl⟩

/-- Witness for C10 at the concrete non-unit normal `(0, 3, 4)` (length `5`,
which the model's square root computes exactly). -/
theorem infinity_plane_unit_normal_witness :
    ¬ (Vec3f.mk (F.fin 0) (F.fin 3) (F.fin 4)).length = F.fin 0 ∧
    (InfinityPlane.new ⟨F.fin 1, F.fin 1, F.fin 1⟩ ⟨F.fin 0, F.fin 3, F.fin 4⟩
        RED_MATERIAL).get_normal ⟨F.fin 9, F.fin 9, F.fin 9⟩ =
      (Vec3f.mk (F.fin 0) (F.fin 3) (F.fin 4)).normalize none :=
  ⟨by decide,
    (infinity_plane_unit_normal ⟨F.fin 1, F.fin 1, F.fin 1⟩ ⟨F.fin 0, F.fin 3, F.fin 4⟩
      RED_MATERIAL ⟨F.fin 9, F.fin 9, F.fin 9⟩ ⟨F.fin 8, F.fin 8, F.fin 8⟩ (by decide)).1⟩

/-- C2: `cast_ray` invoked with a depth strictly greater than `MAX_DEPTH`
returns the background color immediately, whatever the scene content. -/
theorem cast_ray_depth_exceeded (origin direction : Vec3f) (shapes : List ShapeType)
    (lights : List LightType) (depth : Nat) (h : MAX_DEPTH < depth) :
    cast_ray origin direction shapes lights depth = BACKGROUND_COLOR := by
  unfold cast_ray
  rw [show MAX_DEPTH + 1 - depth = 0 from by simp only [MAX_DEPTH] at h ⊢; omega]
  rfl

/-- Witness for C2 at depth `MAX_DEPTH + 1 = 5` on a concrete scene. -/
theorem cast_ray_depth_exceeded_witness :
    MAX_DEPTH < 5 ∧
    cast_ray ⟨F.fin 0, F.fin 0, F.fin 0⟩ ⟨F.fin 0, F.fin 0, F.fin 1⟩ [] [] 5 =
      BACKGROUND_COLOR :=
  ⟨by decide, cast_ray_depth_exceeded _ _ [] [] 5 (by decide)⟩

/-- The function `cast_ray` of the model satisfies the source recurrence of
scene.rs `cast_ray` verbatim: the `depth > MAX_DEPTH` guard, the nearest-hit
query, the two recursive rays at `depth + 1`, the lighting sums and the final
color blend. -/
theorem cast_ray_unfold (origin direction : Vec3f) (shapes : List ShapeType)
    (lights : List LightType) (depth : Nat) :
    cast_ray origin direction shapes lights depth =
      if MAX_DEPTH < depth then BACKGROUND_COLOR
      else
        match scene_intersect origin direction shapes with
        | none => BACKGROUND_COLOR
        | some (hit, normal, material) =>
            let reflect_direction := (reflect direction normal).normalize none
            let reflect_origin := adjust_ray_origin reflect_direction hit normal
            let reflect_color := cast_ray reflect_origin reflect_direction shapes lights (depth + 1)
            let refract_direction := (refract direction normal material.refractive_index).normalize none
            let refract_origin := adjust_ray_origin refract_direction hit normal
            let refract_color := cast_ray refract_origin refract_direction shapes lights (depth + 1)
            let lighting := compute_lighthing hit normal direction lights material shapes
            calculate_final_color material lighting.1 lighting.2.1 lighting.2.2
              reflect_color refract_color := by
  by_cases h : MAX_DEPTH < depth
  · rw [if_pos h]
    unfold cast_ray
    rw [show MAX_DEPTH + 1 - depth = 0 from by simp only [MAX_DEPTH] at h ⊢; omega]
    rfl
  · rw [if_neg h]
    unfold cast_ray
    rw [show MAX_DEPTH + 1 - depth = (MAX_DEPTH + 1 - (depth + 1)) + 1 from by
      simp only [MAX_DEPTH] at h ⊢; omega]
    simp only [castRayFuel]
    rw [if_neg h]

/-- C3: `cast_ray` is total and its recursion is bounded by the depth guard:
computing the source recursion with any fuel budget of at least
`MAX_DEPTH + 1 − depth` nested calls (at most `5` levels from depth `0`)
yields exactly `cast_ray` — the instrumented recursion never exhausts such a
budget, because both recursive calls increase `depth` by `1` and the function
returns without recursing once `depth` exceeds `MAX_DEPTH = 4`. -/
theorem cast_ray_total_bounded (shapes : List ShapeType) (lights : List LightType)
    (fuel depth : Nat) (origin direction : Vec3f)
    (h : MAX_DEPTH + 1 ≤ depth + fuel) :
    castRayFuel shapes lights fuel origin direction depth =
      cast_ray origin direction shapes lights depth := by
  induction fuel generalizing origin direction depth with
  | zero =>
    have hd : MAX_DEPTH < depth := by simp only [MAX_DEPTH] at h ⊢; omega
    rw [cast_ray_unfold, if_pos hd]
    rfl
  | succ n ih =>
    rw [cast_ray_unfold]
    by_cases hd : MAX_DEPTH < depth
    · rw [if_pos hd]
      show (if MAX_DEPTH < depth then BACKGROUND_COLOR else _) = _
      rw [if_pos hd]
    · rw [if_neg hd]
      show (if MAX_DEPTH < depth then BACKGROUND_COLOR else _) = _
      rw [if_neg hd]
      have hrec : MAX_DEPTH + 1 ≤ (depth + 1) + n := by
        simp only [MAX_DEPTH] at h ⊢; omega
      cases hsi : scene_intersect origin direction shapes with
      | none => rfl
      | some t =>
        obtain ⟨hit, normal, material⟩ := t
        simp only
        rw [ih _ _ _ hrec, ih _ _ _ hrec]

/-- Witness for C3: fuel budget `9` at depth `0` computes `cast_ray` on a
concrete scene. -/
theorem cast_ray_total_bounded_witness :
    MAX_DEPTH + 1 ≤ 0 + 9 ∧
    castRayFuel [] [] 9 ⟨F.fin 0, F.fin 0, F.fin 0⟩ ⟨F.fin 0, F.fin 0, F.fin 1⟩ 0 =
      cast_ray ⟨F.fin 0, F.fin 0, F.fin 0⟩ ⟨F.fin 0, F.fin 0, F.fin 1⟩ [] [] 0 :=
  ⟨by decide, cast_ray_total_bounded [] [] 9 0 _ _ (by decide)⟩

/-- Aligning the `mul_add` form of the refraction discriminant computed by
scene.rs with the spec's formula `1 − eta²·(1 − cosi²)`. -/
theorem F.kAlign (eta cosi : F) :
    (eta * eta).mulAdd (-(cosi.mulAdd (-cosi) (F.fin 1))) (F.fin 1) =
      F.fin 1 - eta * eta * (F.fin 1 - cosi * cosi) := by
  show eta * eta * (-(cosi * -cosi + F.fin 1)) + F.fin 1 =
    F.fin 1 + -(eta * eta * (F.fin 1 + -(cosi * cosi)))
  rw [F.mulNeg cosi cosi]
  rw [F.addComm (-(cosi * cosi)) (F.fin 1)]
  rw [F.mulNeg (eta * eta) (F.fin 1 + -(cosi * cosi))]
  rw [F.addComm (-(eta * eta * (F.fin 1 + -(cosi * cosi)))) (F.fin 1)]

/-- The claim's statement of the refraction algorithm, written from the
spec's words: `cosi` clamped to `[−1, 1]`, the index ratio and the normal
flipped when `cosi < 0`, `k = 1 − eta²·(1 − cosi²)`, the zero vector on
`k < 0` (total internal reflection), else
`direction * eta + n * (eta * cosi − sqrt k)`. -/
def refractSpec (direction normal : Vec3f) (refractive_index : F) : Vec3f :=
  let cosi0 := F.clamp (direction * normal) (F.fin (-1)) (F.fin 1)
  let cosi := if F.blt cosi0 (F.fin 0) then -cosi0 else cosi0
  let eta := if F.blt cosi0 (F.fin 0) then refractive_index / F.fin 1
    else F.fin 1 / refractive_index
  let n := if F.blt cosi0 (F.fin 0) then -normal else normal
  let k := F.fin 1 - eta * eta * (F.fin 1 - cosi * cosi)
  if F.blt k (F.fin 0) then ⟨F.fin 0, F.fin 0, F.fin 0⟩
  else direction * eta + n * (eta * cosi - F.sqrt k)

/-- C4: scene.rs `refract` computes exactly the spec's refraction algorithm:
the zero vector whenever the discriminant `k = 1 − eta²·(1 − cosi²)` is
negative, and `direction * eta + n * (eta * cosi − sqrt k)` otherwise, with
`cosi` clamped to `[−1, 1]` and the index ratio and normal flipped when
`cosi < 0`. -/
theorem refract_eq_spec (direction normal : Vec3f) (refractive_index : F) :
    refract direction normal refractive_index =
      refractSpec direction normal refractive_index := by
  unfold refract refractSpec
  by_cases hc : F.blt (F.clamp (direction * normal) (F.fin (-1)) (F.fin 1)) (F.fin 0) = true
  · simp only [hc, if_true, F.kAlign]
    rfl
  · simp only [Bool.not_eq_true] at hc
    simp only [hc, Bool.false_eq_true, if_false, F.kAlign]
    rfl

/-- C5: `is_in_shadow` reports the point shadowed exactly when the shadow
feeler from the epsilon-offset origin toward the light hits some shape and
the hit's distance to the shadow-ray origin is strictly below the light's
distance; no intersection, or one at or beyond the light, is not shadowed. -/
theorem is_in_shadow_iff (normal point light_direction : Vec3f) (light_distance : F)
    (shapes : List ShapeType) :
    (is_in_shadow normal point light_direction light_distance shapes).1 = true ↔
      ∃ hit n m,
        scene_intersect (adjust_ray_origin light_direction point normal)
            light_direction shapes = some (hit, n, m) ∧
        F.blt ((hit - adjust_ray_origin light_direction point normal).length)
            light_distance = true := by
  unfold is_in_shadow
  cases h : scene_intersect (adjust_ray_origin light_direction point normal)
      light_direction shapes with
  | none =>
    simp only [h]
    constructor
    · intro hb; cases hb
    · rintro ⟨hit, n, m, heq, -⟩; cases heq
  | some t =>
    obtain ⟨hit, n, m⟩ := t
    simp only [h]
    constructor
    · intro hb; exact ⟨hit, n, m, rfl, hb⟩
    · rintro ⟨hit', n', m', heq, hb⟩
      injection heq with heq
      cases heq
      exact hb

/-- C6 counterexample: `BoxShape::ray_intersect` can return `Some` of a NaN
distance — for the degenerate box whose two corners coincide with the ray
origin and a zero direction, every slab bound is `0 * inf = NaN`, the NaN
comparisons in the guards are all false, and `Some(tmin) = Some(NaN)` is
returned; so "never a negative or NaN distance" fails as stated. -/
theorem box_ray_intersect_returns_nan :
    (ShapeType.BoxShape
        ⟨⟨F.fin 0, F.fin 0, F.fin 0⟩, ⟨F.fin 0, F.fin 0, F.fin 0⟩, RED_MATERIAL⟩).ray_intersect
        ⟨F.fin 0, F.fin 0, F.fin 0⟩ ⟨F.fin 0, F.fin 0, F.fin 0⟩ = some F.nan ∧
      F.nan.isNaN = true := by
  constructor
  · rfl
  · rfl

/-- C6 amended: for every shape variant and every ray, a returned
`ray_intersect` distance is never negative in the IEEE order (`¬ t < 0`; it
may be NaN or `+inf` on degenerate rays, so non-negativity holds in the form
"not below zero"). -/
theorem ray_intersect_not_negative (s : ShapeType) (origin direction : Vec3f) (t : F)
    (h : s.ray_intersect origin direction = some t) :
    F.blt t (F.fin 0) = false := by
  cases s with
  | Sphere s =>
    unfold ShapeType.ray_intersect Sphere.ray_intersect at h
    simp only at h
    split_ifs at h <;> injection h with h <;>
      (subst h; simp_all [Bool.not_eq_true, Bool.or_eq_true, not_or])
  | BoxShape b =>
    unfold ShapeType.ray_intersect BoxShape.ray_intersect at h
    simp only at h
    split_ifs at h <;> injection h with h <;>
      (subst h; simp_all [Bool.not_eq_true, Bool.or_eq_true, not_or])
  | InfinityPlane p =>
    unfold ShapeType.ray_intersect InfinityPlane.ray_intersect at h
    simp only at h
    split_ifs at h <;> injection h with h <;>
      (subst h; simp_all [Bool.not_eq_true, Bool.or_eq_true, not_or])

/-- Shared concrete ray and plane used by several witnesses: the plane
`z = −5` with unit normal `(0, 0, 1)`, hit from the origin along `(0, 0, −1)`
at distance `5`. -/
def wPlane : ShapeType :=
  ShapeType.InfinityPlane
    (InfinityPlane.new ⟨F.fin 0, F.fin 0, F.fin (-5)⟩ ⟨F.fin 0, F.fin 0, F.fin 1⟩ RED_MATERIAL)

/-- Concrete ray origin for the witnesses. -/
def wOrigin : Vec3f := ⟨F.fin 0, F.fin 0, F.fin 0⟩

/-- Concrete ray direction for the witnesses. -/
def wDir : Vec3f := ⟨F.fin 0, F.fin 0, F.fin (-1)⟩

/-- Witness for the amended C6 at the concrete plane hit `t = 5`. -/
theorem ray_intersect_not_negative_witness :
    wPlane.ray_intersect wOrigin wDir = some (F.fin 5) ∧
      F.blt (F.fin 5) (F.fin 0) = false :=
  ⟨by decide, ray_intersect_not_negative wPlane wOrigin wDir (F.fin 5) (by decide)⟩

/-- Round-half-away-from-zero of a non-positive rational is non-positive. -/
theorem F.roundAway_nonpos {q : ℚ} (h : q ≤ 0) : F.roundAway q ≤ 0 := by
  unfold F.roundAway
  split_ifs with h0
  · have hq : q = 0 := le_antisymm h h0
    subst hq
    norm_num
  · have h1 : (0 : ℚ) ≤ -q + 1 / 2 := by
      have := not_le.mp h0
      linarith
    have := Int.floor_nonneg.mpr h1
    omega

/-- Round-half-away-from-zero of a rational at least `255` is at least `255`. -/
theorem F.roundAway_ge255 {q : ℚ} (h : (255 : ℚ) ≤ q) : (255 : ℤ) ≤ F.roundAway q := by
  unfold F.roundAway
  rw [if_pos (by linarith)]
  have h1 : ((255 : ℚ) + 1 / 2) ≤ q + 1 / 2 := by linarith
  have h2 := Int.floor_le_floor h1
  have h3 : ⌊(255 : ℚ) + 1 / 2⌋ = 255 := by norm_num [Int.floor_eq_iff]
  omega

/-- The saturating byte cast of a non-positive integer value is `0`. -/
theorem u8OfF_intCast_nonpos {m : ℤ} (h : m ≤ 0) : u8OfF (F.fin (m : ℚ)) = 0 := by
  show (if (m : ℚ) < 0 then 0 else if 255 < (m : ℚ) then 255 else ⌊(m : ℚ)⌋.toNat) = 0
  rcases lt_or_eq_of_le h with h' | h'
  · rw [if_pos (by exact_mod_cast h')]
  · subst h'
    norm_num

/-- The saturating byte cast of an integer value at least `255` is `255`. -/
theorem u8OfF_intCast_ge255 {m : ℤ} (h : (255 : ℤ) ≤ m) : u8OfF (F.fin (m : ℚ)) = 255 := by
  show (if (m : ℚ) < 0 then 0 else if 255 < (m : ℚ) then 255 else ⌊(m : ℚ)⌋.toNat) = 255
  have h0 : (0 : ℚ) ≤ (m : ℚ) := by exact_mod_cast le_trans (by norm_num) h
  rw [if_neg (not_lt.mpr h0)]
  rcases lt_or_eq_of_le h with h' | h'
  · rw [if_pos (by exact_mod_cast h')]
  · rw [← h']
    norm_num
    rfl

/-- C7: the scene.rs pixel quantization `to_u8(c) = (c * 255).round() as u8`
agrees with `round(clamp(c, 0, 1) * 255)` (the main.rs variant with the
explicit clamp) on every `f64` value, including NaN, the infinities and
out-of-range finite values: the saturating cast clamps those to `0` or `255`
at the final quantization step. -/
theorem to_u8_eq_clamped (c : F) : to_u8 c = main_to_u8 c := by
  cases c with
  | nan => decide
  | inf => decide
  | ninf => decide
  | fin q =>
    unfold to_u8 main_to_u8 F.clamp
    simp only [F.blt, F.bgt, decide_eq_true_eq]
    by_cases h0 : q < 0
    · rw [if_pos h0]
      show u8OfF ((F.fin q * F.fin 255).round) = u8OfF ((F.fin 0 * F.fin 255).round)
      have hm : q * 255 ≤ 0 := by nlinarith
      show u8OfF (F.fin (F.roundAway (q * 255) : ℚ)) = _
      rw [u8OfF_intCast_nonpos (F.roundAway_nonpos hm)]
      decide
    · rw [if_neg h0]
      by_cases h1 : 1 < q
      · rw [if_pos h1]
        show u8OfF (F.fin (F.roundAway (q * 255) : ℚ)) =
          u8OfF (F.fin (F.roundAway (1 * 255) : ℚ))
        have hm : (255 : ℚ) ≤ q * 255 := by nlinarith
        rw [u8OfF_intCast_ge255 (F.roundAway_ge255 hm)]
        decide
      · rw [if_neg h1]

namespace F

/-- The strict IEEE comparison is irreflexive. -/
theorem blt_irrefl (x : F) : blt x x = false := by
  cases x <;> simp [blt]

/-- The strict IEEE comparison is asymmetric. -/
theorem blt_asymm {x y : F} (h : blt x y = true) : blt y x = false := by
  cases x <;> cases y <;> simp_all [blt]
  linarith

/-- The strict IEEE comparison is transitive. -/
theorem blt_trans {x y z : F} (h1 : blt x y = true) (h2 : blt y z = true) :
    blt x z = true := by
  cases x <;> cases y <;> cases z <;> simp_all [blt]
  linarith

/-- Two non-NaN values neither of which is below the other are equal. -/
theorem blt_total {x y : F} (hx : x.isNaN = false) (hy : y.isNaN = false)
    (hxy : blt x y = false) (hyx : blt y x = false) : x = y := by
  cases x <;> cases y <;> simp_all [blt, isNaN]
  linarith

/-- A value strictly below something is not NaN. -/
theorem isNaN_false_of_blt {t y : F} (h : blt t y = true) : t.isNaN = false := by
  cases t <;> simp_all [blt, isNaN]

end F

/-- Characterization of the `min_by` comparator of scene.rs: it answers
`Greater` exactly when the right distance is a real (non-NaN) value and the
left is NaN or strictly above it. -/
theorem distCmp_gt_iff (a b : F) :
    distCmp a b = Ordering.gt ↔
      (b.isNaN = false ∧ (a.isNaN = true ∨ F.blt b a = true)) := by
  cases ha : a.isNaN <;> cases hb : b.isNaN
  · by_cases h1 : F.blt a b = true
    · simp [distCmp, F.cmpOpt, ha, hb, h1, F.blt_asymm h1]
    · by_cases h2 : F.blt b a = true
      · simp [distCmp, F.cmpOpt, ha, hb, h1, h2]
      · simp [distCmp, F.cmpOpt, ha, hb, h1, h2]
  · simp [distCmp, F.cmpOpt, ha, hb]
  · simp [distCmp, F.cmpOpt, ha, hb]
  · simp [distCmp, F.cmpOpt, ha, hb]

/-- The comparator never answers `Greater` on two equal values. -/
theorem distCmp_self (a : F) : distCmp a a = Ordering.eq := by
  cases ha : a.isNaN <;>
    simp [distCmp, F.cmpOpt, ha, F.blt_irrefl]

/-- Asymmetry of the comparator's strict order. -/
theorem distCmp_gt_le {a b : F} (h : distCmp a b = Ordering.gt) :
    distCmp b a ≠ Ordering.gt := by
  intro h'
  rw [distCmp_gt_iff] at h h'
  obtain ⟨hbf, hcase⟩ := h
  obtain ⟨ha0, hb0⟩ := h'
  rcases hcase with h1 | h1
  · rw [ha0] at h1; cases h1
  · rcases hb0 with h2 | h2
    · rw [hbf] at h2; cases h2
    · have h3 := F.blt_asymm h1
      rw [h3] at h2; cases h2

/-- Transitivity of the comparator's reflexive order `¬ Greater`. -/
theorem distCmp_le_trans {a b c : F} (h1 : distCmp a b ≠ Ordering.gt)
    (h2 : distCmp b c ≠ Ordering.gt) : distCmp a c ≠ Ordering.gt := by
  intro hac
  rw [distCmp_gt_iff] at hac
  obtain ⟨hcf, hcase⟩ := hac
  cases hbN : F.isNaN b with
  | true => exact h2 ((distCmp_gt_iff b c).mpr ⟨hcf, Or.inl hbN⟩)
  | false =>
    have h1a : F.isNaN a = false := by
      cases haN : F.isNaN a with
      | true => exact absurd ((distCmp_gt_iff a b).mpr ⟨hbN, Or.inl haN⟩) h1
      | false => rfl
    have h1b : F.blt b a = false := by
      cases hba : F.blt b a with
      | true => exact absurd ((distCmp_gt_iff a b).mpr ⟨hbN, Or.inr hba⟩) h1
      | false => rfl
    have h2c : F.blt c b = false := by
      cases hcb : F.blt c b with
      | true => exact absurd ((distCmp_gt_iff b c).mpr ⟨hcf, Or.inr hcb⟩) h2
      | false => rfl
    rcases hcase with haN | hca
    · rw [h1a] at haN; cases haN
    · cases hab : F.blt a b with
      | true =>
        have h5 := F.blt_trans hca hab
        rw [h2c] at h5; cases h5
      | false =>
        have heq : a = b := F.blt_total h1a hbN hab h1b
        rw [heq] at hca
        rw [h2c] at hca; cases hca

/-- If the comparator does not answer `Greater` against a real value, that
value is not strictly below. -/
theorem blt_false_of_not_gt {t r : F} (ht : t.isNaN = false)
    (h : distCmp r t ≠ Ordering.gt) : F.blt t r = false := by
  cases hb : F.blt t r with
  | false => rfl
  | true => exact absurd ((distCmp_gt_iff r t).mpr ⟨ht, Or.inr hb⟩) h

/-- Invariant of the `min_by` fold of scene.rs once seeded with a first
element: the fold yields an element of the seed-extended list that the
comparator ranks no greater than the seed and every traversed element (the
first of equal minima is kept, as Rust's `min_by` does). -/
theorem min_by_go {α : Type} (xs : List (F × α)) (a : F × α) :
    ∃ r, xs.foldl (fun acc x => match acc with
        | none => some x
        | some a => if distCmp a.1 x.1 = Ordering.gt then some x else some a)
        (some a) = some r ∧
      (r = a ∨ r ∈ xs) ∧ distCmp r.1 a.1 ≠ Ordering.gt ∧
      ∀ b ∈ xs, distCmp r.1 b.1 ≠ Ordering.gt := by
  induction xs generalizing a with
  | nil =>
    refine ⟨a, rfl, Or.inl rfl, ?_, by intro b hb; cases hb⟩
    rw [distCmp_self]
    intro h; cases h
  | cons x xs ih =>
    rw [List.foldl_cons]
    by_cases hgt : distCmp a.1 x.1 = Ordering.gt
    · obtain ⟨r, heq, hmem, hra, hall⟩ := ih x
      refine ⟨r, ?_, ?_, ?_, ?_⟩
      · show xs.foldl _ (if distCmp a.1 x.1 = Ordering.gt then some x else some a) = some r
        rw [if_pos hgt]
        exact heq
      · rcases hmem with h | h
        · exact Or.inr (h ▸ List.mem_cons_self x xs)
        · exact Or.inr (List.mem_cons_of_mem x h)
      · exact distCmp_le_trans hra (distCmp_gt_le hgt)
      · intro b hb
        rcases List.mem_cons.mp hb with h | h
        · exact h ▸ hra
        · exact hall b h
    · obtain ⟨r, heq, hmem, hra, hall⟩ := ih a
      refine ⟨r, ?_, ?_, hra, ?_⟩
      · show xs.foldl _ (if distCmp a.1 x.1 = Ordering.gt then some x else some a) = some r
        rw [if_neg hgt]
        exact heq
      · rcases hmem with h | h
        · exact Or.inl h
        · exact Or.inr (List.mem_cons_of_mem x h)
      · intro b hb
        rcases List.mem_cons.mp hb with h | h
        · exact h ▸ distCmp_le_trans hra hgt
        · exact hall b h

/-- Correctness of the scene.rs `min_by` selection: a returned element is a
member of the list that the comparator ranks no greater than any member. -/
theorem min_by_spec {α : Type} {l : List (F × α)} {r : F × α} (h : min_by l = some r) :
    r ∈ l ∧ ∀ b ∈ l, distCmp r.1 b.1 ≠ Ordering.gt := by
  cases l with
  | nil => cases h
  | cons x xs =>
    unfold min_by at h
    rw [List.foldl_cons] at h
    obtain ⟨r', heq, hmem, hrx, hall⟩ := min_by_go xs x
    rw [show (xs.foldl (fun acc y => match acc with
        | none => some y
        | some a => if distCmp a.1 y.1 = Ordering.gt then some y else some a)
        (some x)) = some r' from heq] at h
    injection h with h
    subst h
    constructor
    · rcases hmem with h | h
      · exact h ▸ List.mem_cons_self x xs
      · exact List.mem_cons_of_mem x h
    · intro b hb
      rcases List.mem_cons.mp hb with h | h
      · exact h ▸ hrx
      · exact hall b h

/-- The scene.rs `min_by` fold yields an element on any non-empty list. -/
theorem min_by_isSome {α : Type} (x : F × α) (xs : List (F × α)) :
    ∃ r, min_by (x :: xs) = some r := by
  unfold min_by
  rw [List.foldl_cons]
  obtain ⟨r, heq, -, -, -⟩ := min_by_go xs x
  exact ⟨r, heq⟩

/-- Rust `Option::filter` on a present value, as an `if`. -/
theorem option_filter_some {α : Type} (p : α → Bool) (a : α) :
    Option.filter p (some a) = if p a then some a else none := rfl

/-- Characterization of a successful scene.rs `scene_intersect`: the returned
payload comes from a hit whose distance is a real (non-NaN) value strictly
below the far plane and not strictly above any real hit distance in the
scan. -/
theorem scene_intersect_some_char (origin direction : Vec3f) (shapes : List ShapeType)
    {p : Vec3f × Vec3f × Material} (h : scene_intersect origin direction shapes = some p) :
    ∃ t, (t, p) ∈ sceneHits origin direction shapes ∧ t.isNaN = false ∧
      F.blt t (F.fin 1000) = true ∧
      ∀ t' p', (t', p') ∈ sceneHits origin direction shapes → t'.isNaN = false →
        F.blt t' t = false := by
  unfold scene_intersect at h
  cases hm : min_by (sceneHits origin direction shapes) with
  | none =>
    rw [hm] at h
    simp [Option.filter] at h
  | some m =>
    obtain ⟨t, payload⟩ := m
    rw [hm] at h
    by_cases hf : F.blt t (F.fin 1000) = true
    · rw [option_filter_some, if_pos hf] at h
      injection h with h
      subst h
      obtain ⟨hmem, hall⟩ := min_by_spec hm
      refine ⟨t, hmem, F.isNaN_false_of_blt hf, hf, ?_⟩
      intro t' p' hmem' ht'
      exact blt_false_of_not_gt ht' (hall (t', p') hmem')
    · rw [option_filter_some, if_neg hf] at h
      cases h

/-- C1: scene.rs `scene_intersect` is the linear scan that selects the hit
with the smallest real distance, treating NaN distances as worse than any
real distance: a returned payload belongs to a hit whose distance is
non-NaN, below the `1000` far plane, and not strictly above any real hit
distance (so a NaN hit never wins over a real one); a scan producing only
NaN distances yields no hit; and a winning distance at or beyond the far
plane yields no hit, while a real hit below the far plane guarantees a hit. -/
theorem scene_intersect_selects_min (origin direction : Vec3f) (shapes : List ShapeType) :
    (∀ p, scene_intersect origin direction shapes = some p →
        ∃ t, (t, p) ∈ sceneHits origin direction shapes ∧ t.isNaN = false ∧
          F.blt t (F.fin 1000) = true ∧
          ∀ t' p', (t', p') ∈ sceneHits origin direction shapes → t'.isNaN = false →
            F.blt t' t = false) ∧
    ((∀ tp ∈ sceneHits origin direction shapes, tp.1.isNaN = true) →
        scene_intersect origin direction shapes = none) ∧
    ((∃ tp ∈ sceneHits origin direction shapes, tp.1.isNaN = false ∧
        F.blt tp.1 (F.fin 1000) = true) →
      (scene_intersect origin direction shapes).isSome = true) := by
  refine ⟨fun p h => scene_intersect_some_char origin direction shapes h, ?_, ?_⟩
  · intro hall
    cases hsi : scene_intersect origin direction shapes with
    | none => rfl
    | some p =>
      obtain ⟨t, hmem, htN, -, -⟩ := scene_intersect_some_char origin direction shapes hsi
      have := hall (t, p) hmem
      rw [htN] at this
      cases this
  · rintro ⟨⟨t0, p0⟩, hmem, htN, hlt⟩
    obtain ⟨x, xs, hxl⟩ := List.exists_cons_of_ne_nil (List.ne_nil_of_mem hmem)
    obtain ⟨r, hr⟩ := min_by_isSome x xs
    have hr' : min_by (sceneHits origin direction shapes) = some r := by
      rw [hxl]; exact hr
    obtain ⟨hrmem, hrall⟩ := min_by_spec hr'
    have hle := hrall (t0, p0) hmem
    have hrN : r.1.isNaN = false := by
      cases hN : r.1.isNaN with
      | false => rfl
      | true => exact absurd ((distCmp_gt_iff r.1 t0).mpr ⟨htN, Or.inl hN⟩) hle
    have hnb : F.blt t0 r.1 = false := blt_false_of_not_gt htN hle
    have hrlt : F.blt r.1 (F.fin 1000) = true := by
      cases hb : F.blt r.1 t0 with
      | true => exact F.blt_trans hb hlt
      | false =>
        have heq : r.1 = t0 := F.blt_total hrN htN hb hnb
        rw [heq]; exact hlt
    unfold scene_intersect
    rw [hr', option_filter_some, if_pos hrlt]
    rfl

/-- Witness for C1 on the concrete one-plane scene: the plane hit at
distance `5` is a real hit below the far plane, and `scene_intersect`
reports a hit. -/
theorem scene_intersect_selects_min_witness :
    ((F.fin 5, ((⟨F.fin 0, F.fin 0, F.fin (-5)⟩ : Vec3f),
        (⟨F.fin 0, F.fin 0, F.fin 1⟩ : Vec3f), RED_MATERIAL))
        ∈ sceneHits wOrigin wDir [wPlane] ∧
      (F.fin 5).isNaN = false ∧ F.blt (F.fin 5) (F.fin 1000) = true) ∧
    (scene_intersect wOrigin wDir [wPlane]).isSome = true :=
  ⟨⟨by decide, by decide, by decide⟩,
    (scene_intersect_selects_min wOrigin wDir [wPlane]).2.2
      ⟨(F.fin 5, ((⟨F.fin 0, F.fin 0, F.fin (-5)⟩ : Vec3f),
          (⟨F.fin 0, F.fin 0, F.fin 1⟩ : Vec3f), RED_MATERIAL)),
        by decide, by decide, by decide⟩⟩

/-- A frame of exactly `4 * k` bytes splits into `k` pixel chunks of exactly
four bytes each. -/
theorem chunksOf4_spec : ∀ (k : Nat) (l : List Nat), l.length = 4 * k →
    (chunksOf4 l).length = k ∧ ∀ c ∈ chunksOf4 l, c.length = 4 := by
  intro k
  induction k with
  | zero =>
    intro l hl
    have hnil : l = [] := List.eq_nil_of_length_eq_zero (by omega)
    subst hnil
    exact ⟨rfl, by intro c hc; cases hc⟩
  | succ n ih =>
    intro l hl
    rcases l with - | ⟨a, - | ⟨b, - | ⟨c, - | ⟨d, rest⟩⟩⟩⟩ <;>
      simp only [List.length_cons, List.length_nil] at hl
    · omega
    · omega
    · omega
    · omega
    · have hrest : rest.length = 4 * n := by omega
      obtain ⟨hlen, hmem⟩ := ih rest hrest
      rw [show chunksOf4 (a :: b :: c :: d :: rest) = [a, b, c, d] :: chunksOf4 rest
        from rfl]
      refine ⟨by simp [hlen], ?_⟩
      intro ch hch
      rcases List.mem_cons.mp hch with h | h
      · subst h; rfl
      · exact hmem ch h

/-- The per-pixel pass of `render_scene` writes every complete 4-byte chunk
with a value independent of the chunk's previous contents: two chunk lists of
the same length, all chunks complete, with indices staying below
`width * height`, map to the same output. -/
theorem forEachChunk_render_congr (shapes : List ShapeType) (lights : List LightType)
    (height width : Nat) (ftan : F) (hw0 : 0 < width) (hw : width < 2 ^ 32)
    (hh : height < 2 ^ 32) :
    ∀ (cs cs' : List (List Nat)) (k : Nat), cs.length = cs'.length →
      (∀ c ∈ cs, c.length = 4) → (∀ c ∈ cs', c.length = 4) →
      k + cs.length ≤ width * height →
      forEachChunk (renderPixel shapes lights height width ftan) k cs =
        forEachChunk (renderPixel shapes lights height width ftan) k cs' := by
  intro cs
  induction cs with
  | nil =>
    intro cs' k hlen _ _ _
    have : cs' = [] := List.eq_nil_of_length_eq_zero (by simpa using hlen.symm)
    subst this
    rfl
  | cons c cs ih =>
    intro cs' k hlen hc hc' hk
    rcases cs' with - | ⟨c', cs'⟩
    · simp at hlen
    · show renderPixel shapes lights height width ftan k c :: _ =
        renderPixel shapes lights height width ftan k c' :: _
      have hcl : c.length = 4 := hc c (List.mem_cons_self c cs)
      have hcl' : c'.length = 4 := hc' c' (List.mem_cons_self c' cs')
      have hi : k % width < 2 ^ 32 := lt_of_lt_of_le (Nat.mod_lt k hw0) (le_of_lt hw)
      have hkwh : k < width * height := by
        simp only [List.length_cons] at hk
        omega
      have hj : k / width < 2 ^ 32 := by
        have hdiv : k / width < height :=
          (Nat.div_lt_iff_lt_mul hw0).mpr (Nat.mul_comm width height ▸ hkwh)
        exact lt_trans hdiv hh
      congr 1
      · unfold renderPixel
        rw [if_pos hcl, if_pos hcl', if_pos hi, if_pos hi, if_pos hj, if_pos hj]
      · refine ih cs' (k + 1) (by simpa using hlen)
          (fun x hx => hc x (List.mem_cons_of_mem c hx))
          (fun x hx => hc' x (List.mem_cons_of_mem c' hx)) ?_
        simp only [List.length_cons] at hk hlen
        omega

/-- C8: rendering is deterministic — two invocations of `render_scene` with
the same scene, width, height and field of view, on buffers of the
contract's size `width * height * 4`, produce identical output buffers
whatever the buffers' initial contents: every pixel's bytes are a pure
function of the scene, the camera parameters and the pixel index, so no
thread schedule of the per-pixel fan-out can change the result. -/
theorem render_scene_deterministic (shapes : List ShapeType) (lights : List LightType)
    (width height : Nat) (fov : F) (f1 f2 : List Nat)
    (hw : width < 2 ^ 32) (hh : height < 2 ^ 32)
    (h1 : f1.length = 4 * (width * height)) (h2 : f2.length = 4 * (width * height)) :
    (Scene.new shapes lights).render_scene f1 height width fov =
      (Scene.new shapes lights).render_scene f2 height width fov := by
  rcases Nat.eq_zero_or_pos width with hw0 | hw0
  · subst hw0
    have e1 : f1 = [] := List.eq_nil_of_length_eq_zero (by omega)
    have e2 : f2 = [] := List.eq_nil_of_length_eq_zero (by omega)
    rw [e1, e2]
  · obtain ⟨hlen1, hall1⟩ := chunksOf4_spec (width * height) f1 h1
    obtain ⟨hlen2, hall2⟩ := chunksOf4_spec (width * height) f2 h2
    unfold Scene.render_scene
    dsimp only
    congr 1
    exact forEachChunk_render_congr _ _ height width _ hw0 hw hh _ _ 0
      (by rw [hlen1, hlen2]) hall1 hall2 (by rw [hlen1]; omega)

/-- Witness for C8 on a concrete 1×1 frame with two different initial buffer
contents. -/
theorem render_scene_deterministic_witness :
    (1 : Nat) < 2 ^ 32 ∧ [0, 0, 0, 0].length = 4 * (1 * 1) ∧
      [9, 9, 9, 9].length = 4 * (1 * 1) ∧
      (Scene.new [] []).render_scene [0, 0, 0, 0] 1 1 (F.fin 0) =
        (Scene.new [] []).render_scene [9, 9, 9, 9] 1 1 (F.fin 0) :=
  ⟨by decide, by decide, by decide,
    render_scene_deterministic [] [] 1 1 (F.fin 0) [0, 0, 0, 0] [9, 9, 9, 9]
      (by decide) (by decide) (by decide) (by decide)⟩
